import Mathlib

/-!
Verification of the pose-matching and floor-projection core of the
retarget_bvh add-on (files `fkik.py`, `floor.py`, `utils.py`).

Vectors are `Fin 3 → ℝ` and matrices are Mathlib matrices over `ℝ`;
mathutils column access `M.col[j][:3]` becomes `colv M j`, and the entry
`M.col[j][i]` is the mathematical entry `M i j`.  Floating point is modelled
by exact reals.  `Vector.normalize`, `Vector.cross` and the Euler
conversions of mathutils (the host linear-algebra library) are modelled
after the mathutils/Blender C sources (`math_rotation.c`,
`math_vector_inline.c`): `to_euler('YZX')` normalizes the columns of the
rotation block, computes both Euler solutions of
`mat3_normalized_to_eulo2` (with the `16 * FLT_EPSILON` degeneracy
threshold) and, as `mat3_normalized_to_eulO` does, returns the solution
with the smaller total absolute rotation; `Euler('YZX').to_matrix()`
builds `Rx(x) @ Rz(z) @ Ry(y)`.
-/

noncomputable section

namespace RetargetBvh

abbrev Vec3 := Fin 3 → ℝ
abbrev Mat3 := Matrix (Fin 3) (Fin 3) ℝ
abbrev Mat4 := Matrix (Fin 4) (Fin 4) ℝ

/-- Embedding of a 3-index into a 4-index (used to read the upper-left 3x3
block and the first three rows of a column of a 4x4 matrix). -/
def emb3 (i : Fin 3) : Fin 4 := i.castSucc

/-- First three entries of column `j` of a 4x4 matrix: mathutils `M.col[j][:3]`. -/
def colv (M : Mat4) (j : Fin 4) : Vec3 := fun i => M (emb3 i) j

/-- Column `j` of a 3x3 matrix. -/
def colv3 (M : Mat3) (j : Fin 3) : Vec3 := fun i => M i j

/-- mathutils `Vector.dot` for 3-vectors. -/
def dot3 (u v : Vec3) : ℝ := u 0 * v 0 + u 1 * v 1 + u 2 * v 2

/-- mathutils `Vector.cross` for 3-vectors. -/
def cross3 (u v : Vec3) : Vec3 :=
  ![u 1 * v 2 - u 2 * v 1, u 2 * v 0 - u 0 * v 2, u 0 * v 1 - u 1 * v 0]

/-- mathutils `Vector.length`. -/
def vlen (v : Vec3) : ℝ := Real.sqrt (dot3 v v)

/-- mathutils `Vector.normalize`: scale to unit length; the zero vector is
left unchanged (`normalize_v3` in the mathutils C sources). -/
def vnormalize (v : Vec3) : Vec3 := if vlen v = 0 then v else (vlen v)⁻¹ • v

/-!
## Pose-space / global-space conversion — `fkik.getPoseMatrix` /
`fkik.getGlobalMatrix` (claim C1)
-/

/-- Parent data read by `getPoseMatrix`/`getGlobalMatrix`: the parent's
current pose matrix `pb.parent.matrix` and rest matrix
`pb.parent.bone.matrix_local`. -/
structure ParBone where
  matrix : Mat4
  restLocal : Mat4

/-- The data of a pose bone used by the matrix conversions: its rest matrix
`pb.bone.matrix_local` and its optional parent. -/
structure PoseBone where
  restLocal : Mat4
  parent : Option ParBone

/-- `fkik.getPoseMatrix(gmat, pb)`: convert a global matrix to pose space.
`restInv @ parRest @ parInv @ gmat` when the bone has a parent, else
`restInv @ gmat`.  `mathutils.Matrix.inverted` is the Mathlib nonsingular
inverse. -/
def getPoseMatrix (gmat : Mat4) (pb : PoseBone) : Mat4 :=
  match pb.parent with
  | some par => pb.restLocal⁻¹ * par.restLocal * par.matrix⁻¹ * gmat
  | none => pb.restLocal⁻¹ * gmat

/-- `fkik.getGlobalMatrix(mat, pb)`: convert a pose-space matrix to global
space.  `parMat @ parRest.inverted() @ (matrix_local @ mat)` when the bone
has a parent, else `matrix_local @ mat`. -/
def getGlobalMatrix (mat : Mat4) (pb : PoseBone) : Mat4 :=
  match pb.parent with
  | some par => par.matrix * par.restLocal⁻¹ * (pb.restLocal * mat)
  | none => pb.restLocal * mat

/-!
## Pole-target solver — `fkik.matchPoleTarget` (claim C2)

`matchPoleTarget(pb, above, below)` computes a global pole point `p` and
writes it through `getPoseMatrix(Matrix.Translation(p), pb)` and
`insertLocation`; the function below is the computation of `p` from the
two bone matrices and the pole bone's length, translated line by line.
-/

/-- The global pole point computed by `fkik.matchPoleTarget`:
`p0 + 6*pb.bone.length*d` when `abs(n.length) > 1e-4`, else `p0`. -/
def matchPoleTargetPoint (aboveM belowM : Mat4) (poleLen : ℝ) : Vec3 :=
  let ay := colv aboveM 1
  let yb := colv belowM 1
  let az := colv aboveM 2
  let p0 := colv belowM 3
  let n := cross3 ay yb
  if 1e-4 < |vlen n| then
    let nn := vnormalize n
    let d2 := vnormalize (ay - yb - dot3 (ay - yb) nn • nn)
    let d := if 0 < dot3 d2 az then -d2 else d2
    p0 + (6 * poleLen) • d
  else p0

/-- The offset direction as worded by the specification: `above.yAxis -
below.yAxis` projected onto the plane orthogonal to the normalized cross
product, normalized, and negated when its dot with `above.zAxis` is
positive. -/
def poleDirSpec (aboveM belowM : Mat4) : Vec3 :=
  let ay := colv aboveM 1
  let yb := colv belowM 1
  let az := colv aboveM 2
  let nn := vnormalize (cross3 ay yb)
  let d2 := vnormalize (ay - yb - dot3 (ay - yb) nn • nn)
  if 0 < dot3 d2 az then -d2 else d2

/-- Concrete `above` bone matrix for the pole-target boundary analysis:
Y axis `(0,1,0)`, Z axis `(0,0,1)`. -/
def poleAboveCex : Mat4 :=
  Matrix.of ![![0, 0, 0, 0], ![0, 1, 0, 0], ![0, 0, 1, 0], ![0, 0, 0, 0]]

/-- Concrete `below` bone matrix for the pole-target boundary analysis:
Y axis `(1/10000, 1, 0)` (cross product with the above Y axis has length
exactly `1e-4`), head at the origin. -/
def poleBelowCex : Mat4 :=
  Matrix.of ![![0, 1/10000, 0, 0], ![0, 1, 0, 0], ![0, 0, 0, 0], ![0, 0, 0, 0]]

/-!
## Floor projection — `floor.py` (claims C3, C4)
-/

/-- `floor.getProjection(vec, ez)`: `ez.dot(Vector(vec[:3]))`. -/
def getProjection (vec ez : Vec3) : ℝ := dot3 ez vec

/-- `floor.getOffset(point, ez, origin)`: `-ez.dot(point[:3] - origin)`. -/
def getOffset (point ez origin : Vec3) : ℝ := -(dot3 ez (point - origin))

/-- `floor.getHeadOffset(pb, ez, origin)`: offset of the bone head
(column 3 of the pose matrix). -/
def getHeadOffset (M : Mat4) (ez origin : Vec3) : ℝ := getOffset (colv M 3) ez origin

/-- `floor.getTailOffset(pb, ez, origin)`: offset of the bone tail
`head + y * length`. -/
def getTailOffset (M : Mat4) (len : ℝ) (ez origin : Vec3) : ℝ :=
  getOffset (colv M 3 + len • colv M 1) ez origin

/-- Global effect of `floor.addOffset(pb, offset, ez)`: the bone's global
matrix with `offset*ez` added to the first three entries of column 3
(`gmat.col[3] += Vector((x,y,z,0))`); the result is written back through
`getPoseMatrix` and `insertLocation`. -/
def addOffsetG (M : Mat4) (offset : ℝ) (ez : Vec3) : Mat4 :=
  Matrix.of fun i j =>
    if hj : j = Fin.last 3 then
      (if hi : i = Fin.last 3 then M i j else M i j + offset * ez (i.castPred hi))
    else M i j

/-- The per-side data consumed by `floor.getFkOffset`: the optional
ball/toe/heel marker pose matrices, the optional toe bone pose matrix with
its length, and the foot bone length. -/
structure FkFoot where
  markers : Option (Mat4 × Mat4 × Mat4)
  toe : Option Mat4
  toeLength : ℝ
  footLength : ℝ

/-- `floor.getFkOffset`: the largest head offset of the three markers when
markers exist, else the largest of toe tail, toe head and the derived heel
`ball - y*foot.length`, else `0`. -/
def getFkOffset (f : FkFoot) (ez origin : Vec3) : ℝ :=
  match f.markers with
  | some (mBall, mToe, mHeel) =>
      let offset := getHeadOffset mToe ez origin
      let offset :=
        if offset < getHeadOffset mBall ez origin then getHeadOffset mBall ez origin else offset
      if offset < getHeadOffset mHeel ez origin then getHeadOffset mHeel ez origin else offset
  | none =>
    match f.toe with
    | some toeM =>
        let offset := getTailOffset toeM f.toeLength ez origin
        let offset :=
          if offset < getHeadOffset toeM ez origin then getHeadOffset toeM ez origin else offset
        let heel := colv toeM 3 - f.footLength • colv toeM 1
        if offset < getOffset heel ez origin then getOffset heel ez origin else offset
    | none => 0

/-- One frame of `floor.floorFkFoot`: the left offset when the left side is
enabled (else 0), replaced by the right offset when the right side is
enabled and larger; the hips bone is moved by `addOffset` only when the
resulting offset is positive.  Returns the hip bone's new global matrix. -/
def floorFkFrame (useLeft useRight : Bool) (lf rf : FkFoot) (hips : Mat4)
    (ez origin : Vec3) : Mat4 :=
  let offset := if useLeft then getFkOffset lf ez origin else 0
  let offset :=
    if useRight then
      (if offset < getFkOffset rf ez origin then getFkOffset rf ez origin else offset)
    else offset
  if 0 < offset then addOffsetG hips offset ez else hips

/-- `floor.getIkOffset`: the larger of the head and tail offsets of the IK
foot control bone. -/
def getIkOffset (legM : Mat4) (legLen : ℝ) (ez origin : Vec3) : ℝ :=
  let offset := getHeadOffset legM ez origin
  if offset < getTailOffset legM legLen ez origin then getTailOffset legM legLen ez origin
  else offset

/-- One frame of `floor.floorIkFoot` (after the `fillKeyFrames` location
prefill): each enabled side's IK foot bone is moved by its own positive
offset, and the root is moved by `min(lOffset, rOffset)` when that is
positive and the hips option is on.  Returns the new global matrices of
`(foot.ik.L, foot.ik.R, root)`. -/
def floorIkFrame (useLeft useRight useHips : Bool) (lleg rleg root : Mat4)
    (lLen rLen : ℝ) (ez origin : Vec3) : Mat4 × Mat4 × Mat4 :=
  let lOffset := if useLeft then getIkOffset lleg lLen ez origin else 0
  let rOffset := if useRight then getIkOffset rleg rLen ez origin else 0
  let lleg2 := if useLeft ∧ 0 < lOffset then addOffsetG lleg lOffset ez else lleg
  let rleg2 := if useRight ∧ 0 < rOffset then addOffsetG rleg rOffset ez else rleg
  let hOffset := min lOffset rOffset
  let root2 := if 0 < hOffset ∧ useHips then addOffsetG root hOffset ez else root
  (lleg2, rleg2, root2)

/-!
## IK leg matching — `fkik.matchIkLeg` (claim C5)
-/

/-- The foot Y direction derived by `fkik.matchIkLeg` before normalization:
in the flat case (`zHeel > zBall and zHeel > zToe`) the toe bone's Y axis
(or `-z` when `abs(y[2]) > abs(z[2])`) with its third component zeroed,
otherwise `tail - heelHead` with `tail = toeHead + y*toe.length`. -/
def matchIkLegYraw (toeM : Mat4) (toeLen : ℝ) (mBallM mToeM mHeelM : Mat4) : Vec3 :=
  let tail := colv toeM 3 + toeLen • colv toeM 1
  let zBall := mBallM 2 3
  let zToe := mToeM 2 3
  let zHeel := mHeelM 2 3
  let y := colv toeM 1
  let z := colv toeM 2
  if zBall < zHeel ∧ zToe < zHeel then
    Function.update (if |z 2| < |y 2| then -z else y) 2 0
  else tail - colv mHeelM 3

/-- The normalized foot Y direction used by `fkik.matchIkLeg` to build the
IK foot matrix. -/
def matchIkLegY (toeM : Mat4) (toeLen : ℝ) (mBallM mToeM mHeelM : Mat4) : Vec3 :=
  vnormalize (matchIkLegYraw toeM toeLen mBallM mToeM mHeelM)

/-- A pose matrix whose head has height `z` along the world Z axis (used as
a marker matrix in concrete scenarios). -/
def zMat (z : ℝ) : Mat4 :=
  Matrix.of ![![0, 0, 0, 0], ![0, 0, 0, 0], ![0, 0, 0, z], ![0, 0, 0, 0]]

/-- The world up direction `(0,0,1)` (the default floor-plane normal). -/
def ezWorld : Vec3 := ![0, 0, 1]

/-!
## Limb straightening — `fkik.Bender.minimizeFCurve` (claim C6)
-/

/-- An animation F-curve as read by `minimizeFCurve`: the host's curve
evaluation (`fcu.evaluate`) and the list of keyframe points `(t, y)`. -/
structure FCurve where
  evalAt : ℝ → ℝ
  keys : List (ℝ × ℝ)

/-- The keyframe rewrite of `fkik.Bender.minimizeFCurve`: every keyframe
with `t0 <= t <= t1` and `y < y0` is raised to `y0`; all other keyframes
are unchanged. -/
def minimizeKeys (y0 t0 t1 : ℝ) (keys : List (ℝ × ℝ)) : List (ℝ × ℝ) :=
  keys.map fun k => if t0 ≤ k.1 ∧ k.1 ≤ t1 ∧ k.2 < y0 then (k.1, y0) else k

/-- `fkik.Bender.minimizeFCurve` on a curve: the reference value is the
curve evaluated at frame 0 (`y0 = fcu.evaluate(0)`), the range is
`[frames[0], frames[-1]]`. -/
def minimizeFCurveKeys (fcu : FCurve) (t0 t1 : ℝ) : List (ℝ × ℝ) :=
  minimizeKeys (fcu.evalAt 0) t0 t1 fcu.keys

/-- The bend-axis curve of the specification's example: keyframe values
`[-5, 10, -3]` with reference value `-5` at frame 0. -/
def bendCurveEx : FCurve := ⟨fun _ => -5, [(0, -5), (1, 10), (2, -3)]⟩

/-- A bend-axis curve with a keyframe genuinely below the frame-0
reference: values `[-5, 10, -7]` with reference `-5`. -/
def bendCurveEx2 : FCurve := ⟨fun _ => -5, [(0, -5), (1, 10), (2, -7)]⟩

/-!
## Euler-YZX conversions and `floor.keepToeRotationNegative`
(claims C7, C10)
-/

/-- The C-library `atan2` on exact reals. -/
def atan2 (y x : ℝ) : ℝ :=
  if 0 < x then Real.arctan (y / x)
  else if x < 0 then
    (if 0 ≤ y then Real.arctan (y / x) + Real.pi else Real.arctan (y / x) - Real.pi)
  else if 0 < y then Real.pi / 2 else if y < 0 then -(Real.pi / 2) else 0

/-- `FLT_EPSILON = 2^-23`, the float epsilon used by Blender's Euler
extraction. -/
def fltEpsilon : ℝ := 1 / 2 ^ 23

/-- The degeneracy threshold `16 * FLT_EPSILON` of
`mat3_normalized_to_eulo2`. -/
def eulEps : ℝ := 16 * fltEpsilon

/-- Column normalization performed by `Matrix.to_euler` before the Euler
extraction (`normalize_m3`). -/
def matNormalize3 (M : Mat3) : Mat3 := Matrix.of fun i j => vnormalize (colv3 M j) i

/-- Blender's first Euler solution for order YZX (`eul1` of
`mat3_normalized_to_eulo2`, axes `i=1, j=2, k=0`, parity 0), on a
column-normalized matrix `N`, returned as `(x, y, z)` angles.  In Blender's
column-major layout `mat[c][r]` is the mathematical entry `N r c`:
`cy = hypot(N 1 1, N 2 1)`; in the regular branch
`x = atan2(N 2 1, N 1 1)`, `y = atan2(N 0 2, N 0 0)`,
`z = atan2(-N 0 1, cy)`; in the degenerate branch (`cy` at most
`16 * FLT_EPSILON`) `x = 0`, `y = atan2(-N 2 0, N 2 2)` and the same
`z`. -/
def eulYZX1 (N : Mat3) : ℝ × ℝ × ℝ :=
  if eulEps < Real.sqrt ((N 1 1) ^ 2 + (N 2 1) ^ 2) then
    (atan2 (N 2 1) (N 1 1), atan2 (N 0 2) (N 0 0),
      atan2 (-(N 0 1)) (Real.sqrt ((N 1 1) ^ 2 + (N 2 1) ^ 2)))
  else
    (0, atan2 (-(N 2 0)) (N 2 2),
      atan2 (-(N 0 1)) (Real.sqrt ((N 1 1) ^ 2 + (N 2 1) ^ 2)))

/-- Blender's second Euler solution for order YZX (`eul2` of
`mat3_normalized_to_eulo2`): in the regular branch both `atan2` arguments
are negated for the `x` and `y` angles and the second argument is negated
for the `z` angle; in the degenerate branch it is a copy of the first
solution. -/
def eulYZX2 (N : Mat3) : ℝ × ℝ × ℝ :=
  if eulEps < Real.sqrt ((N 1 1) ^ 2 + (N 2 1) ^ 2) then
    (atan2 (-(N 2 1)) (-(N 1 1)), atan2 (-(N 0 2)) (-(N 0 0)),
      atan2 (-(N 0 1)) (-(Real.sqrt ((N 1 1) ^ 2 + (N 2 1) ^ 2))))
  else
    (0, atan2 (-(N 2 0)) (N 2 2),
      atan2 (-(N 0 1)) (Real.sqrt ((N 1 1) ^ 2 + (N 2 1) ^ 2)))

/-- The total absolute rotation `|x| + |y| + |z|` used by
`mat3_normalized_to_eulO` to choose between the two Euler solutions. -/
def absSum3 (e : ℝ × ℝ × ℝ) : ℝ := |e.1| + |e.2.1| + |e.2.2|

/-- Blender's `mat3_normalized_to_eulO` for order YZX: of the two Euler
solutions, return the one with the smaller total absolute rotation (the
first one on ties: the C code tests `d1 > d2`). -/
def eulYZX (N : Mat3) : ℝ × ℝ × ℝ :=
  if absSum3 (eulYZX2 N) < absSum3 (eulYZX1 N) then eulYZX2 N else eulYZX1 N

/-- mathutils `Matrix.to_euler('YZX')`: column-normalize, then extract the
smaller-rotation Euler solution. -/
def toEuler (M : Mat3) : ℝ × ℝ × ℝ := eulYZX (matNormalize3 M)

/-- mathutils `Euler((x,y,z), 'YZX').to_matrix()`: the rotation
`Rx(x) @ Rz(z) @ Ry(y)`, written entrywise as in Blender's
`eulO_to_mat3`. -/
def matYZX (ex ey ez : ℝ) : Mat3 :=
  Matrix.of
    ![![Real.cos ez * Real.cos ey, -Real.sin ez, Real.cos ez * Real.sin ey],
      ![Real.sin ez * (Real.cos ey * Real.cos ex) + Real.sin ey * Real.sin ex,
        Real.cos ez * Real.cos ex,
        Real.sin ez * (Real.sin ey * Real.cos ex) - Real.cos ey * Real.sin ex],
      ![Real.sin ez * (Real.cos ey * Real.sin ex) - Real.sin ey * Real.cos ex,
        Real.cos ez * Real.sin ex,
        Real.sin ez * (Real.sin ey * Real.sin ex) + Real.cos ey * Real.cos ex]]

/-- Upper-left 3x3 block of a 4x4 matrix: mathutils `Matrix.to_3x3()`. -/
def rot3 (M : Mat4) : Mat3 := Matrix.of fun i j => M (emb3 i) (emb3 j)

/-- A 4x4 matrix built from a rotation block and a full fourth column:
`euler.to_matrix().to_4x4()` followed by `pmat.col[3] = pmat0.col[3]`
(the bottom row is `0,0,0` in the first three columns). -/
def mk4 (R : Mat3) (c : Fin 4 → ℝ) : Mat4 :=
  Matrix.of fun i j =>
    if hj : j = Fin.last 3 then c i
    else if hi : i = Fin.last 3 then 0
    else R (i.castPred hi) (j.castPred hj)

/-- The YZX Euler pitch of a pose matrix: the `x` angle of
`pmat.to_3x3().to_euler('YZX')`. -/
def pitchYZX (P : Mat4) : ℝ := (toEuler (rot3 P)).1

/-- `floor.keepToeRotationNegative(pmat, scn)`: if the YZX Euler `x` angle
of the rotation block is positive, rebuild the matrix from the Euler
angles with `x` set to 0, keeping column 3; otherwise return the input
unchanged. -/
def keepToeRotationNegative (P : Mat4) : Mat4 :=
  if 0 < (toEuler (rot3 P)).1 then
    mk4 (matYZX 0 (toEuler (rot3 P)).2.1 (toEuler (rot3 P)).2.2) (fun i => P i (Fin.last 3))
  else P

/-- One frame of `floor.toeBelowBall` in the marker branch (`if mBall:`):
when `zToe > zBall` the pose matrix is the result `corr` of
`offsetToeRotation` (whose lock correction lives in `retarget.py` and is
abstracted here), else `getPoseMatrix(toe.matrix, toe)`; either way
`keepToeRotationNegative` is applied before `insertRotation`. -/
def toeBelowBallFrame (toeBone : PoseBone) (toeM mBallM mToeM : Mat4) (ez : Vec3)
    (corr : Mat4) : Mat4 :=
  let zToe := getProjection (colv mToeM 3) ez
  let zBall := getProjection (colv mBallM 3) ez
  keepToeRotationNegative (if zBall < zToe then corr else getPoseMatrix toeM toeBone)

/-- A bone with identity rest matrix and no parent (so that
`getPoseMatrix(gmat, pb) = gmat`). -/
def trivBone : PoseBone := ⟨1, none⟩

/-- A pose matrix whose rotation block is the rotation by +90 degrees about
X — its YZX Euler pitch is `pi/2 > 0`. -/
def toePoseCex : Mat4 :=
  Matrix.of ![![1, 0, 0, 0], ![0, 0, -1, 0], ![0, 1, 0, 0], ![0, 0, 0, 1]]

/-- A pose matrix with identity rotation block and a nonzero translation —
its YZX Euler pitch is `0`. -/
def poseId : Mat4 :=
  Matrix.of ![![1, 0, 0, 5], ![0, 1, 0, 6], ![0, 0, 1, 7], ![0, 0, 0, 1]]

/-!
## The IK-mode gate of `floor.toesBelowBall` (claim C8)

`toesBelowBall` reads `rig["MhaLegIk_L"] or rig["MhaLegIk_R"]` inside a
`try`, with `except KeyError: useIk = False`; a missing left property
aborts the whole read.  Property values are floats, truthy iff nonzero.
-/

/-- The value of `useIk` computed by `floor.toesBelowBall`.  Python
evaluates `rig["MhaLegIk_L"]` first: if it is missing the `KeyError` is
caught and `useIk = False` regardless of the right property; if it is
present and nonzero the gate fires; if it is present and zero the right
property is read (missing right again gives `False`). -/
def useIkOf (legIkL legIkR : Option ℝ) : Bool :=
  match legIkL with
  | none => false
  | some l =>
    if l = 0 then
      (match legIkR with
       | none => false
       | some r => if r = 0 then false else true)
    else true

/-- `floor.toesBelowBall` as a function of the two IK switch properties and
the animation state: it raises `MocapError("Toe Below Ball only for FK
feet")` before touching the animation when `useIk` is truthy, otherwise it
runs the per-frame body. -/
def toesBelowBallRun {α : Type} (legIkL legIkR : Option ℝ) (anim : α)
    (body : α → α) : Except String α :=
  if useIkOf legIkL legIkR then Except.error "Toe Below Ball only for FK feet"
  else Except.ok (body anim)

/-!
## Snap bone resolution — `fkik.getSnapBones` (claim C9)
-/

/-- A bone constraint: its type string and mute flag. -/
structure Cns where
  ctype : String
  mute : Bool
deriving DecidableEq

/-- A pose bone as read by `getSnapBones`: only its constraint list
matters. -/
structure PBone where
  constraints : List Cns
deriving DecidableEq

/-- Failures of `getSnapBones`: a raised `MocapError`, or an uncaught
Python `KeyError` from `rig.pose.bones[name]`. -/
inductive SnapErr where
  | mocap (msg : String)
  | keyError (key : String)
deriving DecidableEq

/-- The `SnapBonesAlpha8` table of `fkik.py`. -/
def SnapBonesAlpha8 (key : String) : Option (List (Option String)) :=
  if key = "Arm" then some [some "upper_arm", some "forearm", some "hand"]
  else if key = "ArmFK" then some [some "upper_arm.fk", some "forearm.fk", some "hand.fk"]
  else if key = "ArmIK" then
    some [some "upper_arm.ik", some "forearm.ik", none, some "elbow.pt.ik", some "hand.ik"]
  else if key = "Leg" then some [some "thigh", some "shin", some "foot", some "toe"]
  else if key = "LegFK" then
    some [some "thigh.fk", some "shin.fk", some "foot.fk", some "toe.fk"]
  else if key = "LegIK" then
    some [some "thigh.ik", some "shin.ik", some "knee.pt.ik", some "ankle", some "ankle.ik",
      some "foot.ik", some "foot.rev", some "toe.rev", some "ball.marker", some "toe.marker",
      some "heel.marker"]
  else none

/-- The bone-collection loop of `getSnapBones`: look up each non-`None`
name with the suffix appended; a missing bone raises an uncaught
`KeyError`; unmuted `LIMIT_ROTATION` constraints are collected in order. -/
def collectSnap (bones : String → Option PBone) (suf : String) :
    List (Option String) → Except SnapErr (List (Option PBone) × List Cns)
  | [] => Except.ok ([], [])
  | none :: rest => do
      let (ps, cs) ← collectSnap bones suf rest
      Except.ok (none :: ps, cs)
  | some name :: rest =>
    match bones (name ++ suf) with
    | none => Except.error (SnapErr.keyError (name ++ suf))
    | some pb => do
        let (ps, cs) ← collectSnap bones suf rest
        Except.ok (some pb :: ps,
          (pb.constraints.filter fun c => c.ctype = "LIMIT_ROTATION" ∧ c.mute = false) ++ cs)

/-- `fkik.getSnapBones(rig, key, suffix)`: the `try` block probes
`rig.pose.bones["thigh.fk.L"]` and the table entry for `key`, catching
`KeyError` into `names = None`; `if not names` raises
`MocapError("Not an mhx armature")`; then every named bone is looked up
with the transformed suffix `'.' + suffix[1:]` (an uncaught `KeyError`
when missing). -/
def getSnapBones (bones : String → Option PBone) (key suffix : String) :
    Except SnapErr (List (Option PBone) × List Cns) :=
  match bones "thigh.fk.L" with
  | none => Except.error (SnapErr.mocap "Not an mhx armature")
  | some _ =>
    match SnapBonesAlpha8 key with
    | none => Except.error (SnapErr.mocap "Not an mhx armature")
    | some names =>
      if names.isEmpty then Except.error (SnapErr.mocap "Not an mhx armature")
      else collectSnap bones ("." ++ suffix.drop 1) names

/-- A rig containing only the sentinel bone `thigh.fk.L` and nothing
else. -/
def bonesOnlySentinel : String → Option PBone :=
  fun s => if s = "thigh.fk.L" then some ⟨[]⟩ else none

/-- A rig with no bones at all. -/
def bonesEmptyRig : String → Option PBone := fun _ => none

/-!
# Theorems
-/

/-!
## General helper lemmas
-/

theorem vnormalize_unit (v : Vec3) (h : dot3 v v = 1) : vnormalize v = v := by
  have hl : vlen v = 1 := by rw [vlen, h, Real.sqrt_one]
  rw [vnormalize, if_neg (by rw [hl]; exact one_ne_zero), hl, inv_one, one_smul]

theorem vnormalize_apply_zero (v : Vec3) (i : Fin 3) (h : v i = 0) :
    vnormalize v i = 0 := by
  rw [vnormalize]
  split_ifs
  · exact h
  · rw [Pi.smul_apply, h, smul_zero]

theorem matNormalize3_eq_self (M : Mat3) (h : ∀ j, dot3 (colv3 M j) (colv3 M j) = 1) :
    matNormalize3 M = M := by
  ext i j
  rw [matNormalize3, Matrix.of_apply, vnormalize_unit _ (h j)]
  rfl

theorem atan2_zero_left (x : ℝ) (hx : 0 < x) : atan2 0 x = 0 := by
  rw [atan2, if_pos hx, zero_div, Real.arctan_zero]

theorem atan2_one_zero : atan2 1 0 = Real.pi / 2 := by
  rw [atan2, if_neg (lt_irrefl 0), if_neg (lt_irrefl 0), if_pos one_pos]

theorem eulEps_pos : (0 : ℝ) < eulEps := by norm_num [eulEps, fltEpsilon]

theorem atan2_pos_branch (y x : ℝ) (hx : 0 < x) : atan2 y x = Real.arctan (y / x) := by
  rw [atan2, if_pos hx]

theorem atan2_neg_branch_nonneg (y x : ℝ) (hx : x < 0) (hy : 0 ≤ y) :
    atan2 y x = Real.arctan (y / x) + Real.pi := by
  rw [atan2, if_neg (asymm hx), if_pos hx, if_pos hy]

theorem atan2_neg_branch_neg (y x : ℝ) (hx : x < 0) (hy : y < 0) :
    atan2 y x = Real.arctan (y / x) - Real.pi := by
  rw [atan2, if_neg (asymm hx), if_pos hx, if_neg (not_le.mpr hy)]

theorem atan2_zero_x_pos (y : ℝ) (hy : 0 < y) : atan2 y 0 = Real.pi / 2 := by
  rw [atan2, if_neg (lt_irrefl (0 : ℝ)), if_neg (lt_irrefl (0 : ℝ)), if_pos hy]

theorem atan2_zero_x_neg (y : ℝ) (hy : y < 0) : atan2 y 0 = -(Real.pi / 2) := by
  rw [atan2, if_neg (lt_irrefl (0 : ℝ)), if_neg (lt_irrefl (0 : ℝ)), if_neg (asymm hy),
    if_pos hy]

theorem atan2_zero_zero : atan2 0 0 = 0 := by
  simp [atan2]

theorem atan2_zero_neg (x : ℝ) (hx : x < 0) : atan2 0 x = Real.pi := by
  rw [atan2_neg_branch_nonneg 0 x hx le_rfl, zero_div, Real.arctan_zero, zero_add]

theorem arctan_nonpos_of_nonpos {u : ℝ} (h : u ≤ 0) : Real.arctan u ≤ 0 := by
  have hm := Real.arctan_strictMono.monotone h
  rwa [Real.arctan_zero] at hm

theorem arctan_nonneg_of_nonneg {u : ℝ} (h : 0 ≤ u) : 0 ≤ Real.arctan u := by
  have hm := Real.arctan_strictMono.monotone h
  rwa [Real.arctan_zero] at hm

theorem arctan_pos_of_pos {u : ℝ} (h : 0 < u) : 0 < Real.arctan u := by
  have hm := Real.arctan_strictMono h
  rwa [Real.arctan_zero] at hm

theorem arctan_neg_of_neg {u : ℝ} (h : u < 0) : Real.arctan u < 0 := by
  have hm := Real.arctan_strictMono h
  rwa [Real.arctan_zero] at hm

theorem atan2_range (y x : ℝ) : -Real.pi < atan2 y x ∧ atan2 y x ≤ Real.pi := by
  have hp := Real.pi_pos
  have h1 := Real.arctan_lt_pi_div_two (y / x)
  have h2 := Real.neg_pi_div_two_lt_arctan (y / x)
  rw [atan2]
  split_ifs with hx hx2 hy hy2 hy3
  · exact ⟨by linarith, by linarith⟩
  · have ha : Real.arctan (y / x) ≤ 0 :=
      arctan_nonpos_of_nonpos (div_nonpos_iff.mpr (Or.inl ⟨hy, hx2.le⟩))
    exact ⟨by linarith, by linarith⟩
  · have ha : 0 < Real.arctan (y / x) :=
      arctan_pos_of_pos (div_pos_of_neg_of_neg (not_le.mp hy) hx2)
    exact ⟨by linarith, by linarith⟩
  · exact ⟨by linarith, by linarith⟩
  · exact ⟨by linarith, by linarith⟩
  · exact ⟨by linarith, by linarith⟩

theorem abs_atan2_le_pi (y x : ℝ) : |atan2 y x| ≤ Real.pi :=
  abs_le.mpr ⟨(atan2_range y x).1.le, (atan2_range y x).2⟩

theorem abs_atan2_le_pi_div_two (y x : ℝ) (hx : 0 ≤ x) : |atan2 y x| ≤ Real.pi / 2 := by
  have h1 := Real.arctan_lt_pi_div_two (y / x)
  have h2 := Real.neg_pi_div_two_lt_arctan (y / x)
  rcases lt_or_eq_of_le hx with h | h
  · rw [atan2_pos_branch y x h]
    exact abs_le.mpr ⟨h2.le, h1.le⟩
  · rcases lt_trichotomy y 0 with hy | hy | hy
    · rw [← h, atan2_zero_x_neg y hy, abs_neg]
      exact le_of_eq (abs_of_pos Real.pi_div_two_pos)
    · rw [← h, hy, atan2_zero_zero, abs_zero]
      exact Real.pi_div_two_pos.le
    · rw [← h, atan2_zero_x_pos y hy]
      exact le_of_eq (abs_of_pos Real.pi_div_two_pos)

theorem abs_atan2_negy_negx (y x : ℝ) (h : ¬(y = 0 ∧ x = 0)) :
    |atan2 y x| + |atan2 (-y) (-x)| = Real.pi := by
  have hp := Real.pi_pos
  rcases lt_trichotomy x 0 with hx | hx | hx
  · have h2 : atan2 (-y) (-x) = Real.arctan (y / x) := by
      rw [atan2_pos_branch (-y) (-x) (by linarith), neg_div_neg_eq]
    rcases le_or_lt 0 y with hy | hy
    · have h1 := atan2_neg_branch_nonneg y x hx hy
      have ha : Real.arctan (y / x) ≤ 0 :=
        arctan_nonpos_of_nonpos (div_nonpos_iff.mpr (Or.inl ⟨hy, hx.le⟩))
      have hb := Real.neg_pi_div_two_lt_arctan (y / x)
      rw [h1, h2, abs_of_nonneg (by linarith), abs_of_nonpos ha]
      ring
    · have h1 := atan2_neg_branch_neg y x hx hy
      have ha : 0 < Real.arctan (y / x) :=
        arctan_pos_of_pos (div_pos_of_neg_of_neg hy hx)
      have hb := Real.arctan_lt_pi_div_two (y / x)
      rw [h1, h2, abs_of_nonpos (by linarith), abs_of_nonneg ha.le]
      ring
  · subst hx
    rcases lt_trichotomy y 0 with hy | hy | hy
    · rw [atan2_zero_x_neg y hy, neg_zero, atan2_zero_x_pos (-y) (by linarith),
        abs_neg, abs_of_pos Real.pi_div_two_pos]
      ring
    · exact absurd ⟨hy, rfl⟩ h
    · rw [atan2_zero_x_pos y hy, neg_zero, atan2_zero_x_neg (-y) (by linarith),
        abs_of_pos Real.pi_div_two_pos, abs_neg, abs_of_pos Real.pi_div_two_pos]
      ring
  · have h1 := atan2_pos_branch y x hx
    rcases le_or_lt y 0 with hy | hy
    · have h2 : atan2 (-y) (-x) = Real.arctan (y / x) + Real.pi := by
        rw [atan2_neg_branch_nonneg (-y) (-x) (by linarith) (by linarith), neg_div_neg_eq]
      have ha : Real.arctan (y / x) ≤ 0 :=
        arctan_nonpos_of_nonpos (div_nonpos_iff.mpr (Or.inr ⟨hy, hx.le⟩))
      have hb := Real.neg_pi_div_two_lt_arctan (y / x)
      rw [h1, h2, abs_of_nonpos ha, abs_of_nonneg (by linarith)]
      ring
    · have h2 : atan2 (-y) (-x) = Real.arctan (y / x) - Real.pi := by
        rw [atan2_neg_branch_neg (-y) (-x) (by linarith) (by linarith), neg_div_neg_eq]
      have ha : 0 < Real.arctan (y / x) := arctan_pos_of_pos (div_pos hy hx)
      have hb := Real.arctan_lt_pi_div_two (y / x)
      rw [h1, h2, abs_of_nonneg ha.le, abs_of_nonpos (by linarith)]
      ring

theorem abs_atan2_negy_negx_le (y x : ℝ) :
    |atan2 y x| + |atan2 (-y) (-x)| ≤ Real.pi := by
  by_cases h : y = 0 ∧ x = 0
  · obtain ⟨rfl, rfl⟩ := h
    rw [neg_zero, atan2_zero_zero, abs_zero]
    linarith [Real.pi_pos]
  · exact le_of_eq (abs_atan2_negy_negx y x h)

theorem abs_atan2_negx (y x : ℝ) (hx : x ≠ 0) :
    |atan2 y x| + |atan2 y (-x)| = Real.pi := by
  have hp := Real.pi_pos
  rcases hx.lt_or_lt with hxn | hxp
  · have h2 : atan2 y (-x) = -Real.arctan (y / x) := by
      rw [atan2_pos_branch y (-x) (by linarith), div_neg, Real.arctan_neg]
    rcases le_or_lt 0 y with hy | hy
    · have h1 := atan2_neg_branch_nonneg y x hxn hy
      have ha : Real.arctan (y / x) ≤ 0 :=
        arctan_nonpos_of_nonpos (div_nonpos_iff.mpr (Or.inl ⟨hy, hxn.le⟩))
      have hb := Real.neg_pi_div_two_lt_arctan (y / x)
      rw [h1, h2, abs_of_nonneg (by linarith), abs_of_nonneg (by linarith)]
      ring
    · have h1 := atan2_neg_branch_neg y x hxn hy
      have ha : 0 < Real.arctan (y / x) :=
        arctan_pos_of_pos (div_pos_of_neg_of_neg hy hxn)
      have hb := Real.arctan_lt_pi_div_two (y / x)
      rw [h1, h2, abs_of_nonpos (by linarith), abs_of_nonpos (by linarith)]
      ring
  · have h1 := atan2_pos_branch y x hxp
    rcases le_or_lt 0 y with hy | hy
    · have h2 : atan2 y (-x) = -Real.arctan (y / x) + Real.pi := by
        rw [atan2_neg_branch_nonneg y (-x) (by linarith) hy, div_neg, Real.arctan_neg]
      have ha : 0 ≤ Real.arctan (y / x) :=
        arctan_nonneg_of_nonneg (div_nonneg hy hxp.le)
      have hb := Real.arctan_lt_pi_div_two (y / x)
      rw [h1, h2, abs_of_nonneg ha, abs_of_nonneg (by linarith)]
      ring
    · have h2 : atan2 y (-x) = -Real.arctan (y / x) - Real.pi := by
        rw [atan2_neg_branch_neg y (-x) (by linarith) hy, div_neg, Real.arctan_neg]
      have ha : Real.arctan (y / x) < 0 :=
        arctan_neg_of_neg (div_neg_of_neg_of_pos hy hxp)
      have hb := Real.neg_pi_div_two_lt_arctan (y / x)
      rw [h1, h2, abs_of_nonpos ha.le, abs_of_nonpos (by linarith)]
      ring

theorem atan2_smul (s y x : ℝ) (hs : 0 < s) : atan2 (s * y) (s * x) = atan2 y x := by
  have e : s * y / (s * x) = y / x := mul_div_mul_left y x hs.ne'
  rw [atan2, atan2, e]
  rcases lt_trichotomy x 0 with hx | hx | hx
  · rw [if_neg (asymm (mul_neg_of_pos_of_neg hs hx)), if_neg (asymm hx),
      if_pos (mul_neg_of_pos_of_neg hs hx), if_pos hx]
    rcases le_or_lt 0 y with hy | hy
    · rw [if_pos (mul_nonneg hs.le hy), if_pos hy]
    · rw [if_neg (not_le.mpr (mul_neg_of_pos_of_neg hs hy)), if_neg (not_le.mpr hy)]
  · subst hx
    rw [mul_zero]
    rcases lt_trichotomy y 0 with hy | hy | hy
    · rw [if_neg (lt_irrefl (0 : ℝ)), if_neg (lt_irrefl (0 : ℝ)), if_neg (lt_irrefl (0 : ℝ)),
        if_neg (lt_irrefl (0 : ℝ)), if_neg (asymm (mul_neg_of_pos_of_neg hs hy)),
        if_neg (asymm hy), if_pos (mul_neg_of_pos_of_neg hs hy), if_pos hy]
    · subst hy
      rw [mul_zero]
    · rw [if_neg (lt_irrefl (0 : ℝ)), if_neg (lt_irrefl (0 : ℝ)), if_neg (lt_irrefl (0 : ℝ)),
        if_neg (lt_irrefl (0 : ℝ)), if_pos (mul_pos hs hy), if_pos hy]
  · rw [if_pos (mul_pos hs hx), if_pos hx]

theorem atan2_sin_cos (b : ℝ) (h1 : -Real.pi < b) (h2 : b ≤ Real.pi) :
    atan2 (Real.sin b) (Real.cos b) = b := by
  have hp := Real.pi_pos
  rcases lt_trichotomy (Real.cos b) 0 with hc | hc | hc
  · rcases le_or_lt 0 (Real.sin b) with hs | hs
    · have hb0 : 0 ≤ b := by
        by_contra hneg
        push_neg at hneg
        exact absurd (Real.sin_neg_of_neg_of_neg_pi_lt hneg h1) (not_lt.mpr hs)
      have hbg : Real.pi / 2 < b := by
        by_contra hble
        push_neg at hble
        exact absurd (Real.cos_nonneg_of_mem_Icc (Set.mem_Icc.mpr ⟨by linarith, hble⟩))
          (not_le.mpr hc)
      rw [atan2_neg_branch_nonneg _ _ hc hs, ← Real.tan_eq_sin_div_cos,
        ← Real.tan_sub_pi, Real.arctan_tan (by linarith) (by linarith)]
      ring
    · have hb0 : b < 0 := by
        by_contra hge
        push_neg at hge
        exact absurd (Real.sin_nonneg_of_nonneg_of_le_pi hge h2) (not_le.mpr hs)
      have hbl : b < -(Real.pi / 2) := by
        by_contra hble
        push_neg at hble
        exact absurd (Real.cos_nonneg_of_mem_Icc (Set.mem_Icc.mpr ⟨hble, by linarith⟩))
          (not_le.mpr hc)
      rw [atan2_neg_branch_neg _ _ hc hs, ← Real.tan_eq_sin_div_cos,
        ← Real.tan_add_pi, Real.arctan_tan (by linarith) (by linarith)]
      ring
  · rcases le_or_lt 0 b with hb0 | hb0
    · have hb : b = Real.pi / 2 := by
        apply Real.injOn_cos (Set.mem_Icc.mpr ⟨hb0, h2⟩)
          (Set.mem_Icc.mpr ⟨by linarith, by linarith⟩)
        rw [hc, Real.cos_pi_div_two]
      rw [hb, Real.sin_pi_div_two, Real.cos_pi_div_two, atan2_one_zero]
    · have hb : -b = Real.pi / 2 := by
        apply Real.injOn_cos (Set.mem_Icc.mpr ⟨by linarith, by linarith⟩)
          (Set.mem_Icc.mpr ⟨by linarith, by linarith⟩)
        rw [Real.cos_neg, hc, Real.cos_pi_div_two]
      have hb' : b = -(Real.pi / 2) := by linarith
      rw [hb', Real.sin_neg, Real.cos_neg, Real.sin_pi_div_two, Real.cos_pi_div_two,
        atan2_zero_x_neg _ (by norm_num)]
  · have hbu : b < Real.pi / 2 := by
      by_contra hble
      push_neg at hble
      exact absurd (Real.cos_nonpos_of_pi_div_two_le_of_le hble (by linarith))
        (not_le.mpr hc)
    have hbl : -(Real.pi / 2) < b := by
      by_contra hble
      push_neg at hble
      have hcn : Real.cos (-b) ≤ 0 :=
        Real.cos_nonpos_of_pi_div_two_le_of_le (by linarith) (by linarith)
      rw [Real.cos_neg] at hcn
      exact absurd hcn (not_le.mpr hc)
    rw [atan2_pos_branch _ _ hc, ← Real.tan_eq_sin_div_cos, Real.arctan_tan hbl hbu]

theorem mk4_apply_last (R : Mat3) (c : Fin 4 → ℝ) (i : Fin 4) :
    mk4 R c i (Fin.last 3) = c i := by
  simp [mk4]

theorem rot3_mk4 (R : Mat3) (c : Fin 4 → ℝ) : rot3 (mk4 R c) = R := by
  ext i j
  simp [rot3, mk4, emb3, (Fin.castSucc_lt_last _).ne]

theorem matYZX_one_one (b c : ℝ) : matYZX 0 b c 1 1 = Real.cos c := by
  simp [matYZX]

theorem matYZX_two_one (b c : ℝ) : matYZX 0 b c 2 1 = 0 := by
  simp [matYZX]

theorem matYZX_zero_zero (b c : ℝ) : matYZX 0 b c 0 0 = Real.cos c * Real.cos b := by
  simp [matYZX]

theorem matYZX_zero_one (b c : ℝ) : matYZX 0 b c 0 1 = -Real.sin c := by
  simp [matYZX]

theorem matYZX_zero_two (b c : ℝ) : matYZX 0 b c 0 2 = Real.cos c * Real.sin b := by
  simp [matYZX]

theorem matNormalize3_matYZX_zero (b c : ℝ) :
    matNormalize3 (matYZX 0 b c) = matYZX 0 b c := by
  apply matNormalize3_eq_self
  intro j
  fin_cases j
  · simp [dot3, colv3, matYZX]
    nlinarith [Real.sin_sq_add_cos_sq b, Real.sin_sq_add_cos_sq c]
  · simp [dot3, colv3, matYZX]
    nlinarith [Real.sin_sq_add_cos_sq c]
  · simp [dot3, colv3, matYZX]
    nlinarith [Real.sin_sq_add_cos_sq b, Real.sin_sq_add_cos_sq c]

theorem absSum3_mk (x y z : ℝ) : absSum3 (x, y, z) = |x| + |y| + |z| := rfl

theorem eulYZX1_range (N : Mat3) :
    (-Real.pi < (eulYZX1 N).2.1 ∧ (eulYZX1 N).2.1 ≤ Real.pi) ∧
    (-Real.pi < (eulYZX1 N).2.2 ∧ (eulYZX1 N).2.2 ≤ Real.pi) := by
  rw [eulYZX1]
  split_ifs
  · exact ⟨atan2_range _ _, atan2_range _ _⟩
  · exact ⟨atan2_range _ _, atan2_range _ _⟩

theorem eulYZX2_range (N : Mat3) :
    (-Real.pi < (eulYZX2 N).2.1 ∧ (eulYZX2 N).2.1 ≤ Real.pi) ∧
    (-Real.pi < (eulYZX2 N).2.2 ∧ (eulYZX2 N).2.2 ≤ Real.pi) := by
  rw [eulYZX2]
  split_ifs
  · exact ⟨atan2_range _ _, atan2_range _ _⟩
  · exact ⟨atan2_range _ _, atan2_range _ _⟩

theorem eulYZX_range (N : Mat3) :
    (-Real.pi < (eulYZX N).2.1 ∧ (eulYZX N).2.1 ≤ Real.pi) ∧
    (-Real.pi < (eulYZX N).2.2 ∧ (eulYZX N).2.2 ≤ Real.pi) := by
  rw [eulYZX]
  split_ifs
  · exact eulYZX2_range N
  · exact eulYZX1_range N

theorem absSum12 (N : Mat3) :
    absSum3 (eulYZX1 N) + absSum3 (eulYZX2 N) ≤ 3 * Real.pi := by
  have hp := Real.pi_pos
  rw [eulYZX1, eulYZX2]
  split_ifs with h
  · rw [absSum3_mk, absSum3_mk]
    have hx0 : ¬(N 2 1 = 0 ∧ N 1 1 = 0) := by
      rintro ⟨h1, h2⟩
      rw [h1, h2] at h
      norm_num [eulEps, fltEpsilon, Real.sqrt_zero] at h
    have px := abs_atan2_negy_negx (N 2 1) (N 1 1) hx0
    have py := abs_atan2_negy_negx_le (N 0 2) (N 0 0)
    have pz := abs_atan2_negx (-(N 0 1)) (Real.sqrt ((N 1 1) ^ 2 + (N 2 1) ^ 2))
      (lt_trans eulEps_pos h).ne'
    linarith
  · rw [absSum3_mk]
    have hy := abs_atan2_le_pi (-(N 2 0)) (N 2 2)
    have hz := abs_atan2_le_pi_div_two (-(N 0 1)) (Real.sqrt ((N 1 1) ^ 2 + (N 2 1) ^ 2))
      (Real.sqrt_nonneg _)
    rw [abs_zero]
    linarith

theorem absSum3_eulYZX_le (N : Mat3) : absSum3 (eulYZX N) ≤ 3 * Real.pi / 2 := by
  have h12 := absSum12 N
  rw [eulYZX]
  split_ifs with h
  · linarith
  · linarith

theorem pitch_rebuild (b c : ℝ) (hb1 : -Real.pi < b) (hb2 : b ≤ Real.pi)
    (hc1 : -Real.pi < c) (hc2 : c ≤ Real.pi)
    (hsum : |b| + |c| < 3 * Real.pi / 2) :
    (toEuler (matYZX 0 b c)).1 ≤ 0 := by
  have hp := Real.pi_pos
  rw [toEuler, matNormalize3_matYZX_zero]
  have hcy : Real.sqrt ((matYZX 0 b c 1 1) ^ 2 + (matYZX 0 b c 2 1) ^ 2) = |Real.cos c| := by
    rw [matYZX_one_one, matYZX_two_one]
    rw [show ((0:ℝ)) ^ 2 = 0 by norm_num, add_zero, Real.sqrt_sq_eq_abs]
  by_cases hreg : eulEps < |Real.cos c|
  · have hne : Real.cos c ≠ 0 := by
      intro h0
      rw [h0, abs_zero] at hreg
      exact absurd hreg (not_lt.mpr eulEps_pos.le)
    have he1 : eulYZX1 (matYZX 0 b c) =
        (atan2 0 (Real.cos c),
          atan2 (Real.cos c * Real.sin b) (Real.cos c * Real.cos b),
          atan2 (Real.sin c) |Real.cos c|) := by
      rw [eulYZX1, hcy, if_pos hreg, matYZX_two_one, matYZX_one_one, matYZX_zero_two,
        matYZX_zero_zero, matYZX_zero_one, neg_neg]
    have he2 : eulYZX2 (matYZX 0 b c) =
        (atan2 0 (-Real.cos c),
          atan2 (-(Real.cos c * Real.sin b)) (-(Real.cos c * Real.cos b)),
          atan2 (Real.sin c) (-|Real.cos c|)) := by
      rw [eulYZX2, hcy, if_pos hreg, matYZX_two_one, matYZX_one_one, matYZX_zero_two,
        matYZX_zero_zero, matYZX_zero_one, neg_neg, neg_zero]
    have hyy : ¬(Real.cos c * Real.sin b = 0 ∧ Real.cos c * Real.cos b = 0) := by
      rintro ⟨hA, hB⟩
      have hsb : Real.sin b = 0 := by
        rcases mul_eq_zero.mp hA with h' | h'
        · exact absurd h' hne
        · exact h'
      have hcb : Real.cos b = 0 := by
        rcases mul_eq_zero.mp hB with h' | h'
        · exact absurd h' hne
        · exact h'
      nlinarith [Real.sin_sq_add_cos_sq b]
    have hb' : atan2 (Real.sin b) (Real.cos b) = b := atan2_sin_cos b hb1 hb2
    have hc' : atan2 (Real.sin c) (Real.cos c) = c := atan2_sin_cos c hc1 hc2
    have hpy : |atan2 (Real.cos c * Real.sin b) (Real.cos c * Real.cos b)| +
        |atan2 (-(Real.cos c * Real.sin b)) (-(Real.cos c * Real.cos b))| = Real.pi :=
      abs_atan2_negy_negx _ _ hyy
    have hpz : abs (atan2 (Real.sin c) |Real.cos c|) +
        abs (atan2 (Real.sin c) (-|Real.cos c|)) = Real.pi :=
      abs_atan2_negx _ _ (abs_ne_zero.mpr hne)
    rcases hne.lt_or_lt with hcc | hcc
    · have habs : |Real.cos c| = -Real.cos c := abs_of_neg hcc
      rw [habs] at he1 he2 hpz
      rw [neg_neg] at he2 hpz
      have hy2 : atan2 (-(Real.cos c * Real.sin b)) (-(Real.cos c * Real.cos b)) = b := by
        rw [show -(Real.cos c * Real.sin b) = -Real.cos c * Real.sin b by ring,
          show -(Real.cos c * Real.cos b) = -Real.cos c * Real.cos b by ring,
          atan2_smul (-Real.cos c) (Real.sin b) (Real.cos b) (by linarith), hb']
      have hx2 : atan2 (0:ℝ) (-Real.cos c) = 0 := atan2_zero_left _ (by linarith)
      have hx1 : atan2 (0:ℝ) (Real.cos c) = Real.pi := atan2_zero_neg _ hcc
      have hd2 : absSum3 (eulYZX2 (matYZX 0 b c)) = |b| + |c| := by
        rw [he2, absSum3_mk, hx2, hy2, hc', abs_zero, zero_add]
      have hd1 : absSum3 (eulYZX1 (matYZX 0 b c)) = 3 * Real.pi - (|b| + |c|) := by
        rw [he1, absSum3_mk, hx1, abs_of_pos hp]
        have e1 : |atan2 (Real.cos c * Real.sin b) (Real.cos c * Real.cos b)| =
            Real.pi - |b| := by
          rw [hy2] at hpy
          linarith
        have e2 : |atan2 (Real.sin c) (-Real.cos c)| = Real.pi - |c| := by
          rw [hc'] at hpz
          linarith
        rw [e1, e2]
        ring
      rw [eulYZX, hd1, hd2, if_pos (by linarith)]
      rw [he2]
      exact le_of_eq hx2
    · have habs : |Real.cos c| = Real.cos c := abs_of_pos hcc
      rw [habs] at he1 he2 hpz
      have hy1 : atan2 (Real.cos c * Real.sin b) (Real.cos c * Real.cos b) = b := by
        rw [atan2_smul (Real.cos c) (Real.sin b) (Real.cos b) hcc, hb']
      have hx1 : atan2 (0:ℝ) (Real.cos c) = 0 := atan2_zero_left _ hcc
      have hx2 : atan2 (0:ℝ) (-Real.cos c) = Real.pi := atan2_zero_neg _ (by linarith)
      have hd1 : absSum3 (eulYZX1 (matYZX 0 b c)) = |b| + |c| := by
        rw [he1, absSum3_mk, hx1, hy1, hc', abs_zero, zero_add]
      have hd2 : absSum3 (eulYZX2 (matYZX 0 b c)) = 3 * Real.pi - (|b| + |c|) := by
        rw [he2, absSum3_mk, hx2, abs_of_pos hp]
        have e1 : |atan2 (-(Real.cos c * Real.sin b)) (-(Real.cos c * Real.cos b))| =
            Real.pi - |b| := by
          rw [hy1] at hpy
          linarith
        have e2 : |atan2 (Real.sin c) (-Real.cos c)| = Real.pi - |c| := by
          rw [hc'] at hpz
          linarith
        rw [e1, e2]
        ring
      rw [eulYZX, hd1, hd2, if_neg (by linarith)]
      rw [he1]
      exact le_of_eq hx1
  · have h1 : (eulYZX1 (matYZX 0 b c)).1 = 0 := by
      rw [eulYZX1, hcy, if_neg hreg]
    have h2 : (eulYZX2 (matYZX 0 b c)).1 = 0 := by
      rw [eulYZX2, hcy, if_neg hreg]
    rw [eulYZX]
    split_ifs
    · exact le_of_eq h2
    · exact le_of_eq h1

/-!
## Claim C1
-/

/-- Claim C1: with the parent's current pose matrix held fixed,
`getGlobalMatrix (getPoseMatrix M pb) pb = M` for every global matrix `M`,
provided the bone's rest matrix and (when present) the parent's rest and
current pose matrices are invertible; in particular for a bone with no
parent the round trip returns `M` exactly.  Invertibility of `M` itself is
not needed. -/
theorem getGlobalMatrix_getPoseMatrix (M : Mat4) (pb : PoseBone)
    (hrest : IsUnit pb.restLocal.det)
    (hpar : ∀ par ∈ pb.parent, IsUnit par.restLocal.det ∧ IsUnit par.matrix.det) :
    getGlobalMatrix (getPoseMatrix M pb) pb = M := by
  rcases hp : pb.parent with _ | par
  · simp only [getPoseMatrix, getGlobalMatrix, hp]
    rw [Matrix.mul_nonsing_inv_cancel_left _ _ hrest]
  · obtain ⟨hpr, hpm⟩ := hpar par (by rw [hp]; rfl)
    simp only [getPoseMatrix, getGlobalMatrix, hp]
    simp only [Matrix.mul_assoc]
    rw [Matrix.mul_nonsing_inv_cancel_left _ _ hrest,
      Matrix.nonsing_inv_mul_cancel_left _ _ hpr,
      Matrix.mul_nonsing_inv_cancel_left _ _ hpm]

/-- Witness for C1: concrete bone whose rest matrix is the identity and
whose parent has identity rest and pose matrices; the round trip on the
identity global matrix is the identity. -/
theorem getGlobalMatrix_getPoseMatrix_witness :
    getGlobalMatrix (getPoseMatrix 1 ⟨1, some ⟨1, 1⟩⟩) ⟨1, some ⟨1, 1⟩⟩ = 1 :=
  getGlobalMatrix_getPoseMatrix 1 ⟨1, some ⟨1, 1⟩⟩ (by simp)
    (by intro par hpar; cases hpar; constructor <;> simp)

/-!
## Claim C10
-/

theorem keepToe_fix (P : Mat4) (h : pitchYZX P ≤ 0) : keepToeRotationNegative P = P :=
  if_neg (not_lt.mpr h)

theorem keepToe_pitch_nonpos (P : Mat4) : pitchYZX (keepToeRotationNegative P) ≤ 0 := by
  by_cases h : 0 < (toEuler (rot3 P)).1
  · have hK : keepToeRotationNegative P =
        mk4 (matYZX 0 (toEuler (rot3 P)).2.1 (toEuler (rot3 P)).2.2)
          (fun i => P i (Fin.last 3)) := if_pos h
    rw [pitchYZX, hK, rot3_mk4]
    obtain ⟨⟨hb1, hb2⟩, hc1, hc2⟩ := eulYZX_range (matNormalize3 (rot3 P))
    have hA := absSum3_eulYZX_le (matNormalize3 (rot3 P))
    rw [absSum3] at hA
    have h' : 0 < (eulYZX (matNormalize3 (rot3 P))).1 := h
    have hx : 0 < |(eulYZX (matNormalize3 (rot3 P))).1| := abs_pos.mpr (ne_of_gt h')
    have hsum : |(eulYZX (matNormalize3 (rot3 P))).2.1| +
        |(eulYZX (matNormalize3 (rot3 P))).2.2| < 3 * Real.pi / 2 := by linarith
    exact pitch_rebuild _ _ hb1 hb2 hc1 hc2 hsum
  · rw [keepToe_fix P (not_lt.mp h)]
    exact not_lt.mp h

/-- Claim C10: `keepToeRotationNegative` changes only the rotation part of
a pose matrix: column 3 of the returned matrix equals that of the input;
when the input's YZX Euler pitch is already non-positive the input matrix
is returned entirely unchanged; and the returned matrix's YZX Euler pitch
is never positive (of the two YZX Euler solutions of the rebuilt
zero-pitch matrix, `to_euler` keeps the one of smaller total rotation,
and that one always has `x = 0`). -/
theorem keepToeRotationNegative_spec (P : Mat4) :
    (∀ i, keepToeRotationNegative P i (Fin.last 3) = P i (Fin.last 3)) ∧
    (pitchYZX P ≤ 0 → keepToeRotationNegative P = P) ∧
    pitchYZX (keepToeRotationNegative P) ≤ 0 := by
  refine ⟨?_, keepToe_fix P, keepToe_pitch_nonpos P⟩
  intro i
  by_cases h : 0 < (toEuler (rot3 P)).1
  · have hK : keepToeRotationNegative P =
        mk4 (matYZX 0 (toEuler (rot3 P)).2.1 (toEuler (rot3 P)).2.2)
          (fun i => P i (Fin.last 3)) := if_pos h
    rw [hK, mk4_apply_last]
  · rw [keepToe_fix P (not_lt.mp h)]

theorem eul1_poseId : eulYZX1 (rot3 poseId) = (0, 0, 0) := by
  rw [eulYZX1, show rot3 poseId 1 1 = 1 from rfl, show rot3 poseId 2 1 = 0 from rfl,
    show rot3 poseId 0 2 = 0 from rfl, show rot3 poseId 0 0 = 1 from rfl,
    show rot3 poseId 0 1 = 0 from rfl]
  rw [show ((1:ℝ)) ^ 2 + 0 ^ 2 = 1 by norm_num, Real.sqrt_one,
    if_pos (by norm_num [eulEps, fltEpsilon] : eulEps < (1:ℝ)), neg_zero,
    atan2_zero_left 1 one_pos]

theorem eul2_poseId : eulYZX2 (rot3 poseId) = (Real.pi, Real.pi, Real.pi) := by
  rw [eulYZX2, show rot3 poseId 1 1 = 1 from rfl, show rot3 poseId 2 1 = 0 from rfl,
    show rot3 poseId 0 2 = 0 from rfl, show rot3 poseId 0 0 = 1 from rfl,
    show rot3 poseId 0 1 = 0 from rfl]
  rw [show ((1:ℝ)) ^ 2 + 0 ^ 2 = 1 by norm_num, Real.sqrt_one,
    if_pos (by norm_num [eulEps, fltEpsilon] : eulEps < (1:ℝ)), neg_zero,
    atan2_zero_neg (-1) (by norm_num)]

theorem pitch_poseId : pitchYZX poseId = 0 := by
  have hp := Real.pi_pos
  have hN : matNormalize3 (rot3 poseId) = rot3 poseId := by
    apply matNormalize3_eq_self
    intro j
    fin_cases j
    · show (1:ℝ) * 1 + 0 * 0 + 0 * 0 = 1
      norm_num
    · show (0:ℝ) * 0 + 1 * 1 + 0 * 0 = 1
      norm_num
    · show (0:ℝ) * 0 + 0 * 0 + 1 * 1 = 1
      norm_num
  have hcmp : ¬ absSum3 (eulYZX2 (rot3 poseId)) < absSum3 (eulYZX1 (rot3 poseId)) := by
    rw [eul1_poseId, eul2_poseId, absSum3_mk, absSum3_mk, abs_zero, abs_of_pos hp]
    linarith
  rw [pitchYZX, toEuler, hN, eulYZX, if_neg hcmp, eul1_poseId]

/-- Witness for C10: on the concrete pose `poseId` (identity rotation with
a translation) the pitch is non-positive and the matrix is returned
unchanged. -/
theorem keepToeRotationNegative_spec_witness :
    pitchYZX poseId ≤ 0 ∧ keepToeRotationNegative poseId = poseId :=
  ⟨le_of_eq pitch_poseId,
    (keepToeRotationNegative_spec poseId).2.1 (le_of_eq pitch_poseId)⟩

/-!
## Claim C7
-/

theorem matNormalize3_toePoseCex : matNormalize3 (rot3 toePoseCex) = rot3 toePoseCex := by
  apply matNormalize3_eq_self
  intro j
  fin_cases j
  · show (1:ℝ) * 1 + 0 * 0 + 0 * 0 = 1
    norm_num
  · show (0:ℝ) * 0 + 0 * 0 + 1 * 1 = 1
    norm_num
  · show (0:ℝ) * 0 + (-1) * (-1) + 0 * 0 = 1
    norm_num

theorem eul1_toePoseCex : eulYZX1 (rot3 toePoseCex) = (Real.pi / 2, 0, 0) := by
  rw [eulYZX1, show rot3 toePoseCex 1 1 = 0 from rfl, show rot3 toePoseCex 2 1 = 1 from rfl,
    show rot3 toePoseCex 0 2 = 0 from rfl, show rot3 toePoseCex 0 0 = 1 from rfl,
    show rot3 toePoseCex 0 1 = 0 from rfl]
  rw [show ((0:ℝ)) ^ 2 + 1 ^ 2 = 1 by norm_num, Real.sqrt_one,
    if_pos (by norm_num [eulEps, fltEpsilon] : eulEps < (1:ℝ)), neg_zero,
    atan2_one_zero, atan2_zero_left 1 one_pos]

theorem eul2_toePoseCex : eulYZX2 (rot3 toePoseCex) = (-(Real.pi / 2), Real.pi, Real.pi) := by
  rw [eulYZX2, show rot3 toePoseCex 1 1 = 0 from rfl, show rot3 toePoseCex 2 1 = 1 from rfl,
    show rot3 toePoseCex 0 2 = 0 from rfl, show rot3 toePoseCex 0 0 = 1 from rfl,
    show rot3 toePoseCex 0 1 = 0 from rfl]
  rw [show ((0:ℝ)) ^ 2 + 1 ^ 2 = 1 by norm_num, Real.sqrt_one,
    if_pos (by norm_num [eulEps, fltEpsilon] : eulEps < (1:ℝ)), neg_zero,
    atan2_zero_x_neg (-1) (by norm_num), atan2_zero_neg (-1) (by norm_num)]

theorem toEuler_toePoseCex : toEuler (rot3 toePoseCex) = (Real.pi / 2, 0, 0) := by
  have hp := Real.pi_pos
  have hcmp : ¬ absSum3 (eulYZX2 (rot3 toePoseCex)) <
      absSum3 (eulYZX1 (rot3 toePoseCex)) := by
    rw [eul1_toePoseCex, eul2_toePoseCex, absSum3_mk, absSum3_mk, abs_zero, abs_neg,
      abs_of_pos hp, abs_of_pos Real.pi_div_two_pos]
    linarith
  rw [toEuler, matNormalize3_toePoseCex, eulYZX, if_neg hcmp, eul1_toePoseCex]

theorem keepToe_toePoseCex_ne : keepToeRotationNegative toePoseCex ≠ toePoseCex := by
  have hK : keepToeRotationNegative toePoseCex =
      mk4 (matYZX 0 (0:ℝ) (0:ℝ)) (fun i => toePoseCex i (Fin.last 3)) := by
    rw [keepToeRotationNegative, toEuler_toePoseCex]
    rw [if_pos (by positivity : (0:ℝ) < Real.pi / 2)]
  intro h
  have h11 : mk4 (matYZX 0 (0:ℝ) (0:ℝ)) (fun i => toePoseCex i (Fin.last 3)) 1 1 =
      toePoseCex 1 1 := by
    rw [← hK, h]
  have hne : (1 : Fin 4) ≠ Fin.last 3 := by decide
  rw [mk4, Matrix.of_apply, dif_neg hne, dif_neg hne] at h11
  have hR : matYZX 0 (0:ℝ) (0:ℝ) 1 1 = 1 := by simp [matYZX]
  rw [show (Fin.castPred 1 hne) = (1 : Fin 3) from rfl, hR] at h11
  rw [show toePoseCex 1 1 = 0 from rfl] at h11
  exact one_ne_zero h11

theorem getPoseMatrix_trivBone (gmat : Mat4) : getPoseMatrix gmat trivBone = gmat := by
  rw [show getPoseMatrix gmat trivBone = (1 : Mat4)⁻¹ * gmat from rfl,
    inv_one, one_mul]

/-- Counterexample to claim C7: with the toe marker at height 0.9 and the
ball marker at height 1.0 (`zToe < zBall`) the correction path does not
fire, yet the final matrix differs from the toe's original pose matrix,
because the unconditional `keepToeRotationNegative` clamp rewrites the
positive-pitch pose `toePoseCex`. -/
theorem toeBelowBall_claim_counterexample :
    getProjection (colv (zMat (9/10)) 3) ezWorld <
      getProjection (colv (zMat 1) 3) ezWorld ∧
    toeBelowBallFrame trivBone toePoseCex (zMat 1) (zMat (9/10)) ezWorld poseId ≠
      getPoseMatrix toePoseCex trivBone := by
  constructor
  · show (0:ℝ) * 0 + 0 * 0 + 1 * (9/10) < 0 * 0 + 0 * 0 + 1 * 1
    norm_num
  · have hlt : ¬ getProjection (colv (zMat 1) 3) ezWorld <
        getProjection (colv (zMat (9/10)) 3) ezWorld := by
      show ¬ ((0:ℝ) * 0 + 0 * 0 + 1 * 1 < 0 * 0 + 0 * 0 + 1 * (9/10))
      norm_num
    have hsel : toeBelowBallFrame trivBone toePoseCex (zMat 1) (zMat (9/10)) ezWorld poseId =
        keepToeRotationNegative (getPoseMatrix toePoseCex trivBone) := by
      simp only [toeBelowBallFrame]
      rw [if_neg hlt]
    rw [hsel, getPoseMatrix_trivBone]
    exact keepToe_toePoseCex_ne

/-- Claim C7 (amended): in the marker branch of `toeBelowBall` the
rotation-correction path fires exactly when `zToe > zBall`; when
`zToe < zBall` the correction does not fire and the matrix passed to the
final clamp is the toe's original pose matrix, which survives entirely
unchanged exactly when its YZX Euler pitch is non-positive (the
unconditional `keepToeRotationNegative` clamp rewrites every
positive-pitch matrix and fixes every non-positive-pitch one). -/
theorem toeBelowBallFrame_spec (toeBone : PoseBone) (toeM mBallM mToeM : Mat4)
    (ez : Vec3) (corr : Mat4) :
    (getProjection (colv mBallM 3) ez < getProjection (colv mToeM 3) ez →
      toeBelowBallFrame toeBone toeM mBallM mToeM ez corr = keepToeRotationNegative corr) ∧
    (¬ getProjection (colv mBallM 3) ez < getProjection (colv mToeM 3) ez →
      toeBelowBallFrame toeBone toeM mBallM mToeM ez corr =
        keepToeRotationNegative (getPoseMatrix toeM toeBone)) ∧
    (getProjection (colv mToeM 3) ez < getProjection (colv mBallM 3) ez →
      (toeBelowBallFrame toeBone toeM mBallM mToeM ez corr = getPoseMatrix toeM toeBone ↔
        pitchYZX (getPoseMatrix toeM toeBone) ≤ 0)) := by
  refine ⟨fun h => ?_, fun h => ?_, fun h => ?_⟩
  · simp only [toeBelowBallFrame]
    rw [if_pos h]
  · simp only [toeBelowBallFrame]
    rw [if_neg h]
  · have hsel : toeBelowBallFrame toeBone toeM mBallM mToeM ez corr =
        keepToeRotationNegative (getPoseMatrix toeM toeBone) := by
      simp only [toeBelowBallFrame]
      rw [if_neg (lt_asymm h)]
    rw [hsel]
    constructor
    · intro he
      rw [← he]
      exact keepToe_pitch_nonpos _
    · intro hpc
      exact keepToe_fix _ hpc

/-- Witness for C7: toe marker at height 1.2, ball marker at height 1.0
(`zToe > zBall`): the correction path fires. -/
theorem toeBelowBallFrame_spec_witness :
    getProjection (colv (zMat 1) 3) ezWorld <
      getProjection (colv (zMat (6/5)) 3) ezWorld ∧
    toeBelowBallFrame trivBone toePoseCex (zMat 1) (zMat (6/5)) ezWorld poseId =
      keepToeRotationNegative poseId := by
  have h : getProjection (colv (zMat 1) 3) ezWorld <
      getProjection (colv (zMat (6/5)) 3) ezWorld := by
    show (0:ℝ) * 0 + 0 * 0 + 1 * 1 < 0 * 0 + 0 * 0 + 1 * (6/5)
    norm_num
  exact ⟨h,
    (toeBelowBallFrame_spec trivBone toePoseCex (zMat 1) (zMat (6/5)) ezWorld poseId).1 h⟩

/-!
## Claim C2
-/

theorem poleCross_eval :
    cross3 (colv poleAboveCex 1) (colv poleBelowCex 1) = ![0, 0, -(1/10000)] := by
  funext i
  fin_cases i
  · show (1:ℝ) * 0 - 0 * 1 = 0
    norm_num
  · show (0:ℝ) * (1/10000) - 0 * 0 = 0
    norm_num
  · show (0:ℝ) * 1 - 1 * (1/10000) = -(1/10000)
    norm_num

theorem poleCross_len : vlen ![0, 0, -(1/10000)] = 1/10000 := by
  have hd : dot3 ![0, 0, -(1/10000)] ![0, 0, -(1/10000)] = ((1:ℝ)/10000) ^ 2 := by
    show (0:ℝ) * 0 + 0 * 0 + -(1/10000) * -(1/10000) = (1/10000) ^ 2
    norm_num
  rw [vlen, hd, Real.sqrt_sq (by norm_num)]

theorem poleCross_normalize : vnormalize ![0, 0, -(1/10000)] = ![0, 0, -1] := by
  rw [vnormalize, if_neg (by rw [poleCross_len]; norm_num), poleCross_len]
  funext i
  fin_cases i
  · show ((1:ℝ)/10000)⁻¹ * 0 = 0
    norm_num
  · show ((1:ℝ)/10000)⁻¹ * 0 = 0
    norm_num
  · show ((1:ℝ)/10000)⁻¹ * -(1/10000) = -1
    norm_num

theorem poleDiff_eval :
    colv poleAboveCex 1 - colv poleBelowCex 1 = ![-(1/10000), 0, 0] := by
  funext i
  fin_cases i
  · show (0:ℝ) - 1/10000 = -(1/10000)
    norm_num
  · show (1:ℝ) - 1 = 0
    norm_num
  · show (0:ℝ) - 0 = 0
    norm_num

theorem poleDiff_len : vlen ![-(1/10000), 0, 0] = 1/10000 := by
  have hd : dot3 ![-(1/10000), 0, 0] ![-(1/10000), 0, 0] = ((1:ℝ)/10000) ^ 2 := by
    show -(1/10000) * -(1/10000) + (0:ℝ) * 0 + 0 * 0 = ((1:ℝ)/10000) ^ 2
    norm_num
  rw [vlen, hd, Real.sqrt_sq (by norm_num)]

theorem poleDiff_normalize : vnormalize ![-(1/10000), 0, 0] = ![-1, 0, 0] := by
  rw [vnormalize, if_neg (by rw [poleDiff_len]; norm_num), poleDiff_len]
  funext i
  fin_cases i
  · show ((1:ℝ)/10000)⁻¹ * -(1/10000) = -1
    norm_num
  · show ((1:ℝ)/10000)⁻¹ * 0 = 0
    norm_num
  · show ((1:ℝ)/10000)⁻¹ * 0 = 0
    norm_num

theorem poleDirSpec_eval : poleDirSpec poleAboveCex poleBelowCex = ![-1, 0, 0] := by
  have hdot : dot3 ![-(1/10000), 0, 0] ![0, 0, -1] = 0 := by
    show -(1/10000) * 0 + (0:ℝ) * 0 + 0 * -1 = 0
    norm_num
  have hdaz : dot3 ![-1, 0, 0] (colv poleAboveCex 2) = 0 := by
    show (-1:ℝ) * 0 + 0 * 0 + 0 * 1 = 0
    norm_num
  simp only [poleDirSpec]
  rw [poleCross_eval, poleCross_normalize, poleDiff_eval, hdot, zero_smul, sub_zero,
    poleDiff_normalize, hdaz, if_neg (lt_irrefl 0)]

theorem polePoint_eval :
    matchPoleTargetPoint poleAboveCex poleBelowCex 1 = colv poleBelowCex 3 := by
  simp only [matchPoleTargetPoint]
  rw [if_neg (by rw [poleCross_eval, poleCross_len, abs_of_pos (by norm_num : (0:ℝ) < 1/10000)]; norm_num)]

/-- Counterexample to claim C2: at the boundary where the cross product of
the Y axes has length exactly `1e-4`, the code takes the fallback branch
(`abs(n.length) > 1e-4` fails) and returns the below head, but the claim's
"otherwise" branch demands the offset formula, whose value differs. -/
theorem matchPoleTarget_claim_counterexample :
    ¬ ((|vlen (cross3 (colv poleAboveCex 1) (colv poleBelowCex 1))| < 1e-4 →
        matchPoleTargetPoint poleAboveCex poleBelowCex 1 = colv poleBelowCex 3) ∧
      (¬ |vlen (cross3 (colv poleAboveCex 1) (colv poleBelowCex 1))| < 1e-4 →
        matchPoleTargetPoint poleAboveCex poleBelowCex 1 =
          colv poleBelowCex 3 + ((6:ℝ) * 1) • poleDirSpec poleAboveCex poleBelowCex)) := by
  rintro ⟨-, h2⟩
  have hnotlt : ¬ |vlen (cross3 (colv poleAboveCex 1) (colv poleBelowCex 1))| < 1e-4 := by
    rw [poleCross_eval, poleCross_len, abs_of_pos (by norm_num : (0:ℝ) < 1/10000)]
    norm_num
  have heq := h2 hnotlt
  rw [polePoint_eval, poleDirSpec_eval] at heq
  have h0 := congrFun heq 0
  rw [Pi.add_apply, Pi.smul_apply, smul_eq_mul,
    show colv poleBelowCex 3 0 = (0:ℝ) from rfl,
    show (![-1, 0, 0] : Vec3) 0 = (-1:ℝ) from rfl] at h0
  norm_num at h0

/-- Claim C2 (amended): the pole point of `matchPoleTarget` is the below
bone's head exactly when the cross product of the Y axes has length at
most `1e-4` (the code tests `abs(n.length) > 1e-4`, so at length exactly
`1e-4` it still falls back); above the threshold it is
`belowHead + 6 * poleLength * d` with `d` the projected, normalized and
possibly negated direction of the specification (`poleDirSpec`). -/
theorem matchPoleTarget_spec (aboveM belowM : Mat4) (poleLen : ℝ) :
    (|vlen (cross3 (colv aboveM 1) (colv belowM 1))| ≤ 1e-4 →
      matchPoleTargetPoint aboveM belowM poleLen = colv belowM 3) ∧
    (1e-4 < |vlen (cross3 (colv aboveM 1) (colv belowM 1))| →
      matchPoleTargetPoint aboveM belowM poleLen =
        colv belowM 3 + (6 * poleLen) • poleDirSpec aboveM belowM) := by
  constructor
  · intro h
    simp only [matchPoleTargetPoint]
    rw [if_neg (not_lt.mpr h)]
  · intro h
    simp only [matchPoleTargetPoint, poleDirSpec]
    rw [if_pos h]

/-- Witness for C2: two parallel Y axes give a zero cross product, so the
pole point is exactly the below bone's head. -/
theorem matchPoleTarget_spec_witness :
    |vlen (cross3 (colv poleAboveCex 1) (colv poleAboveCex 1))| ≤ 1e-4 ∧
    matchPoleTargetPoint poleAboveCex poleAboveCex 1 = colv poleAboveCex 3 := by
  have hd : dot3 (cross3 (colv poleAboveCex 1) (colv poleAboveCex 1))
      (cross3 (colv poleAboveCex 1) (colv poleAboveCex 1)) = 0 := by
    show ((1:ℝ) * 0 - 0 * 1) * ((1:ℝ) * 0 - 0 * 1) + ((0:ℝ) * 0 - 0 * 0) * ((0:ℝ) * 0 - 0 * 0) +
      ((0:ℝ) * 1 - 1 * 0) * ((0:ℝ) * 1 - 1 * 0) = 0
    norm_num
  have h : |vlen (cross3 (colv poleAboveCex 1) (colv poleAboveCex 1))| ≤ 1e-4 := by
    rw [vlen, hd, Real.sqrt_zero, abs_zero]
    norm_num
  exact ⟨h, (matchPoleTarget_spec poleAboveCex poleAboveCex 1).1 h⟩

/-!
## Claim C3
-/

theorem ite_lt_eq_max (a b : ℝ) : (if a < b then b else a) = max a b := by
  by_cases h : a < b
  · rw [if_pos h, max_eq_right h.le]
  · rw [if_neg h, max_eq_left (not_lt.mp h)]

theorem addOffsetG_col3 (M : Mat4) (o : ℝ) (ez : Vec3) (k : Fin 3) :
    addOffsetG M o ez (emb3 k) (Fin.last 3) = M (emb3 k) (Fin.last 3) + o * ez k := by
  simp [addOffsetG, emb3, (Fin.castSucc_lt_last k).ne]

theorem addOffsetG_other (M : Mat4) (o : ℝ) (ez : Vec3) (i : Fin 4) (k : Fin 3) :
    addOffsetG M o ez i (emb3 k) = M i (emb3 k) := by
  simp [addOffsetG, emb3, (Fin.castSucc_lt_last k).ne]

/-- Claim C3: in FK floor mode with both left and right sides enabled, the
hip bone is moved exactly when `max(lOffset, rOffset) > 0`, and then its
global matrix gains `max(lOffset, rOffset) * ez` on the translation column
(`addOffsetG`), all other entries unchanged; when the maximum is not
positive the hip matrix is left unchanged. -/
theorem floorFkFrame_spec (lf rf : FkFoot) (hips : Mat4) (ez origin : Vec3) :
    (floorFkFrame true true lf rf hips ez origin =
      if 0 < max (getFkOffset lf ez origin) (getFkOffset rf ez origin) then
        addOffsetG hips (max (getFkOffset lf ez origin) (getFkOffset rf ez origin)) ez
      else hips) ∧
    (∀ o : ℝ, ∀ k : Fin 3,
      addOffsetG hips o ez (emb3 k) (Fin.last 3) = hips (emb3 k) (Fin.last 3) + o * ez k) ∧
    (∀ o : ℝ, ∀ i : Fin 4, ∀ k : Fin 3,
      addOffsetG hips o ez i (emb3 k) = hips i (emb3 k)) := by
  refine ⟨?_, fun o k => addOffsetG_col3 hips o ez k, fun o i k => addOffsetG_other hips o ez i k⟩
  simp only [floorFkFrame, eq_self_iff_true, if_true]
  rw [ite_lt_eq_max]

/-!
## Claim C4
-/

/-- Claim C4: in IK floor mode with both feet enabled, each foot's IK
control bone is moved by its own offset exactly when that offset is
positive, and the root bone is additionally moved by the minimum of the
two feet's offsets exactly when the hips option is on and that minimum is
positive. -/
theorem floorIkFrame_spec (useHips : Bool) (lleg rleg root : Mat4) (lLen rLen : ℝ)
    (ez origin : Vec3) :
    ((floorIkFrame true true useHips lleg rleg root lLen rLen ez origin).1 =
      if 0 < getIkOffset lleg lLen ez origin then
        addOffsetG lleg (getIkOffset lleg lLen ez origin) ez
      else lleg) ∧
    ((floorIkFrame true true useHips lleg rleg root lLen rLen ez origin).2.1 =
      if 0 < getIkOffset rleg rLen ez origin then
        addOffsetG rleg (getIkOffset rleg rLen ez origin) ez
      else rleg) ∧
    ((floorIkFrame true true useHips lleg rleg root lLen rLen ez origin).2.2 =
      if 0 < min (getIkOffset lleg lLen ez origin) (getIkOffset rleg rLen ez origin) ∧
          useHips = true then
        addOffsetG root
          (min (getIkOffset lleg lLen ez origin) (getIkOffset rleg rLen ez origin)) ez
      else root) := by
  refine ⟨?_, ?_, ?_⟩ <;>
    simp only [floorIkFrame, eq_self_iff_true, if_true, true_and]

/-!
## Claim C5
-/

/-- Claim C5: in `matchIkLeg`, whenever the heel marker's height exceeds
both the ball marker's and the toe marker's heights, the derived foot Y
axis has its vertical component zeroed, both before and after
normalization; in every other case the Y direction is the vector from the
heel marker's head to the FK toe bone's tail. -/
theorem matchIkLeg_spec (toeM : Mat4) (toeLen : ℝ) (mBallM mToeM mHeelM : Mat4) :
    (mBallM 2 3 < mHeelM 2 3 → mToeM 2 3 < mHeelM 2 3 →
      matchIkLegYraw toeM toeLen mBallM mToeM mHeelM 2 = 0 ∧
      matchIkLegY toeM toeLen mBallM mToeM mHeelM 2 = 0) ∧
    (¬ (mBallM 2 3 < mHeelM 2 3 ∧ mToeM 2 3 < mHeelM 2 3) →
      matchIkLegYraw toeM toeLen mBallM mToeM mHeelM =
        (colv toeM 3 + toeLen • colv toeM 1) - colv mHeelM 3) := by
  constructor
  · intro h1 h2
    have hraw : matchIkLegYraw toeM toeLen mBallM mToeM mHeelM =
        Function.update
          (if |colv toeM 2 2| < |colv toeM 1 2| then -(colv toeM 2) else colv toeM 1) 2 0 := by
      simp only [matchIkLegYraw]
      rw [if_pos ⟨h1, h2⟩]
    have hz : matchIkLegYraw toeM toeLen mBallM mToeM mHeelM 2 = 0 := by
      rw [hraw, Function.update_same]
    refine ⟨hz, ?_⟩
    simp only [matchIkLegY]
    exact vnormalize_apply_zero _ _ hz
  · intro h
    simp only [matchIkLegYraw]
    rw [if_neg h]

/-- Witness for C5: heel marker at height 2 above ball and toe markers at
height 1; the derived Y axis has zero vertical component. -/
theorem matchIkLeg_spec_witness :
    zMat 1 2 3 < zMat 2 2 3 ∧
    matchIkLegYraw 0 1 (zMat 1) (zMat 1) (zMat 2) 2 = 0 := by
  have h : zMat 1 2 3 < zMat 2 2 3 := by
    show (1:ℝ) < 2
    norm_num
  exact ⟨h, ((matchIkLeg_spec 0 1 (zMat 1) (zMat 1) (zMat 2)).1 h h).1⟩

/-!
## Claim C6
-/

/-- Counterexample to claim C6's example: on the curve with keyframe
values `[-5, 10, -3]` and reference `-5`, the pass leaves `-3` unchanged
(it is not below the reference), so the result is `[-5, 10, -3]`, not the
claimed `[-5, 10, -5]`. -/
theorem minimizeFCurve_claim_counterexample :
    minimizeFCurveKeys bendCurveEx 0 2 = [((0:ℝ), (-5:ℝ)), (1, 10), (2, -3)] ∧
    ([((0:ℝ), (-5:ℝ)), (1, 10), (2, -3)] : List (ℝ × ℝ)) ≠ [(0, -5), (1, 10), (2, -5)] := by
  constructor
  · norm_num [minimizeFCurveKeys, minimizeKeys, bendCurveEx]
  · intro h
    simp only [List.cons.injEq, Prod.mk.injEq] at h
    norm_num at h

/-- Claim C6 (amended): every keyframe of the curve whose time lies in
`[t0, t1]` ends up no less than the curve's value at frame 0; keyframes
already at or above that reference, and keyframes outside the range, are
unchanged; e.g. values `[-5, 10, -7]` with reference `-5` become
`[-5, 10, -5]` (the spec's example `[-5, 10, -3]` is already clamped and
stays unchanged). -/
theorem minimizeFCurve_spec (fcu : FCurve) (t0 t1 : ℝ) (i : ℕ) (k : ℝ × ℝ)
    (h : fcu.keys.get? i = some k) :
    (∃ k', (minimizeFCurveKeys fcu t0 t1).get? i = some k' ∧ k'.1 = k.1 ∧
      (t0 ≤ k.1 → k.1 ≤ t1 → fcu.evalAt 0 ≤ k'.2) ∧
      (fcu.evalAt 0 ≤ k.2 → k' = k) ∧
      (¬ (t0 ≤ k.1 ∧ k.1 ≤ t1) → k' = k)) ∧
    minimizeFCurveKeys bendCurveEx2 0 2 = [((0:ℝ), (-5:ℝ)), (1, 10), (2, -5)] := by
  constructor
  · refine ⟨if t0 ≤ k.1 ∧ k.1 ≤ t1 ∧ k.2 < fcu.evalAt 0 then (k.1, fcu.evalAt 0) else k,
      ?_, ?_, ?_, ?_, ?_⟩
    · simp only [minimizeFCurveKeys, minimizeKeys]
      rw [List.get?_map, h]
      rfl
    · split_ifs <;> rfl
    · intro ha hb
      split_ifs with hc
      · exact le_refl _
      · have hnlt : ¬ k.2 < fcu.evalAt 0 := fun hlt => hc ⟨ha, hb, hlt⟩
        exact not_lt.mp hnlt
    · intro hy
      split_ifs with hc
      · exact absurd hc.2.2 (not_lt.mpr hy)
      · rfl
    · intro hrange
      split_ifs with hc
      · exact absurd ⟨hc.1, hc.2.1⟩ hrange
      · rfl
  · norm_num [minimizeFCurveKeys, minimizeKeys, bendCurveEx2]

/-- Witness for C6: on the curve with values `[-5, 10, -7]`, the keyframe
at index 2 lies in range and is raised to at least the reference `-5`. -/
theorem minimizeFCurve_spec_witness :
    bendCurveEx2.keys.get? 2 = some ((2:ℝ), (-7:ℝ)) ∧
    ∃ k', (minimizeFCurveKeys bendCurveEx2 0 2).get? 2 = some k' ∧
      bendCurveEx2.evalAt 0 ≤ k'.2 :=
  ⟨rfl, by
    obtain ⟨k', h1, -, h3, -, -⟩ := (minimizeFCurve_spec bendCurveEx2 0 2 2 (2, -7) rfl).1
    exact ⟨k', h1, h3 (by norm_num) (by norm_num)⟩⟩

/-!
## Claim C8
-/

theorem useIkOf_iff (legIkL legIkR : Option ℝ) :
    useIkOf legIkL legIkR = true ↔
      ((∃ l, legIkL = some l ∧ l ≠ 0) ∨
        (legIkL = some 0 ∧ ∃ r, legIkR = some r ∧ r ≠ 0)) := by
  cases legIkL with
  | none => simp [useIkOf]
  | some l =>
    by_cases hl : l = 0
    · subst hl
      cases legIkR with
      | none => simp [useIkOf]
      | some r =>
        by_cases hr : r = 0
        · subst hr
          simp [useIkOf]
        · simp [useIkOf, hr]
    · simp [useIkOf, hl]

/-- Counterexample to claim C8: a rig whose left IK switch property is
absent but whose right IK switch is present and on (`1 ≠ 0`): the
`KeyError` from the left lookup is caught and the operation runs without
raising, modifying the animation (`body` is applied). -/
theorem toesBelowBall_claim_counterexample :
    (1:ℝ) ≠ 0 ∧
    @toesBelowBallRun ℕ none (some 1) 0 id = Except.ok 0 := by
  constructor
  · norm_num
  · rfl

/-- Claim C8 (amended): `toesBelowBall` raises the mode error exactly when
the left IK switch property is present and nonzero, or present and zero
with the right switch present and nonzero; when the left property is
absent the `KeyError` is swallowed and no error is raised even if the
right switch is on; otherwise the body runs on the animation. -/
theorem toesBelowBall_spec {α : Type} (legIkL legIkR : Option ℝ) (anim : α)
    (body : α → α) :
    (toesBelowBallRun legIkL legIkR anim body =
        Except.error "Toe Below Ball only for FK feet" ↔
      ((∃ l, legIkL = some l ∧ l ≠ 0) ∨
        (legIkL = some 0 ∧ ∃ r, legIkR = some r ∧ r ≠ 0))) ∧
    (toesBelowBallRun legIkL legIkR anim body = Except.ok (body anim) ↔
      ¬ ((∃ l, legIkL = some l ∧ l ≠ 0) ∨
        (legIkL = some 0 ∧ ∃ r, legIkR = some r ∧ r ≠ 0))) := by
  rw [← useIkOf_iff legIkL legIkR]
  cases h : useIkOf legIkL legIkR
  · simp [toesBelowBallRun, h]
  · simp [toesBelowBallRun, h]

/-!
## Claim C9
-/

theorem collectSnap_missing (bones : String → Option PBone) (suf : String)
    (l : List (Option String)) (s : String) (hmem : some s ∈ l)
    (hmiss : bones (s ++ suf) = none) :
    ∃ k, collectSnap bones suf l = Except.error (SnapErr.keyError k) := by
  induction l with
  | nil => cases hmem
  | cons hd rest ih =>
    cases hd with
    | none =>
      have hmem' : some s ∈ rest := by
        rcases List.mem_cons.mp hmem with h | h
        · simp at h
        · exact h
      obtain ⟨k, hk⟩ := ih hmem'
      refine ⟨k, ?_⟩
      simp only [collectSnap]
      rw [hk]
      rfl
    | some name =>
      cases hn : bones (name ++ suf) with
      | none =>
        refine ⟨name ++ suf, ?_⟩
        simp only [collectSnap, hn]
      | some pb =>
        have hmem' : some s ∈ rest := by
          rcases List.mem_cons.mp hmem with h | h
          · injection h with h'
            rw [h', hn] at hmiss
            cases hmiss
          · exact h
        obtain ⟨k, hk⟩ := ih hmem'
        refine ⟨k, ?_⟩
        simp only [collectSnap, hn]
        rw [hk]
        rfl

/-- Counterexample to claim C9: a rig that has the sentinel bone
`thigh.fk.L` but lacks the convention-named bone `upper_arm.L` of the
`Arm` snap set: `getSnapBones` fails with an uncaught `KeyError`, not with
the typed `MocapError` (`UnsupportedRigTopology`). -/
theorem getSnapBones_claim_counterexample :
    getSnapBones bonesOnlySentinel "Arm" "_L" =
      Except.error (SnapErr.keyError "upper_arm.L") ∧
    ∀ msg, getSnapBones bonesOnlySentinel "Arm" "_L" ≠
      Except.error (SnapErr.mocap msg) := by
  have h : getSnapBones bonesOnlySentinel "Arm" "_L" =
      Except.error (SnapErr.keyError "upper_arm.L") := by rfl
  refine ⟨h, fun msg hmsg => ?_⟩
  rw [h] at hmsg
  exact SnapErr.noConfusion (Except.error.inj hmsg)

/-- Claim C9 (amended): `getSnapBones` never succeeds on a rig lacking a
bone of the requested snap set; it fails with the typed
`MocapError("Not an mhx armature")` when the sentinel bone `thigh.fk.L`
or the set key is missing, and with an uncaught `KeyError` when the
sentinel is present but another convention-named bone of the set is
missing. -/
theorem getSnapBones_spec (bones : String → Option PBone) (key suffix : String) :
    (bones "thigh.fk.L" = none →
      getSnapBones bones key suffix = Except.error (SnapErr.mocap "Not an mhx armature")) ∧
    (SnapBonesAlpha8 key = none →
      getSnapBones bones key suffix = Except.error (SnapErr.mocap "Not an mhx armature")) ∧
    (∀ names, SnapBonesAlpha8 key = some names → ∀ s, some s ∈ names →
      bones (s ++ ("." ++ suffix.drop 1)) = none →
      getSnapBones bones key suffix = Except.error (SnapErr.mocap "Not an mhx armature") ∨
      ∃ k, getSnapBones bones key suffix = Except.error (SnapErr.keyError k)) := by
  refine ⟨fun h => ?_, fun h => ?_, fun names hn s hmem hmiss => ?_⟩
  · simp only [getSnapBones, h]
  · cases hb : bones "thigh.fk.L" with
    | none => simp only [getSnapBones, hb]
    | some pb => simp only [getSnapBones, hb, h]
  · cases hb : bones "thigh.fk.L" with
    | none =>
      left
      simp only [getSnapBones, hb]
    | some pb =>
      right
      have hne : ¬ names.isEmpty := by
        cases names with
        | nil => cases hmem
        | cons hd rest => simp
      obtain ⟨k, hk⟩ := collectSnap_missing bones ("." ++ suffix.drop 1) names s hmem hmiss
      refine ⟨k, ?_⟩
      simp only [getSnapBones, hb, hn, if_neg hne]
      exact hk

/-- Witness for C9: on a rig with no bones at all the sentinel probe fails
and `getSnapBones` raises the typed `MocapError`. -/
theorem getSnapBones_spec_witness :
    bonesEmptyRig "thigh.fk.L" = none ∧
    getSnapBones bonesEmptyRig "Arm" "_L" =
      Except.error (SnapErr.mocap "Not an mhx armature") :=
  ⟨rfl, (getSnapBones_spec bonesEmptyRig "Arm" "_L").1 rfl⟩

end RetargetBvh
